import Mathlib

/-!
Verification of the citation-checking core of `gpt_scientist.py`
(`Scientist.check_citations`, `Scientist._verified_field_name`, and the
`citation_checker` helpers it calls).

Texts are modelled as `List Char`.  The pandas dataframe is modelled as an
index (list of row labels), a list of column names, and an association list
from `(row, column)` keys to string cells; `data.loc` reads are modelled in
the `Except` monad, raising `PdError.keyError` exactly when pandas would
raise a lookup error (row label not in the index, or column not present).

The module `gpt_scientist.citation_checker` (providing `extract_citations`
and `fuzzy_find_in_text`) is not part of the repository sources available
here; those two functions are modelled from the specification, as marked in
their doc comments.  Everything else is translated from
`src/gpt_scientist/gpt_scientist.py`.
-/

set_option autoImplicit false

abbrev Str := List Char

/-! ### Levenshtein edit distance

Unit-cost insertions, deletions and substitutions, as in the specification
of the approximate matcher.  The recursion is fuelled so that the function
reduces by kernel computation; `lev` supplies fuel `|xs| + |ys|`, which is
exactly the maximal recursion depth, so the fuel-exhausted branch is
unreachable. -/

def levF : Nat → Str → Str → Nat
  | _, [], ys => ys.length
  | _, x :: xs, [] => (x :: xs).length
  | 0, _, _ => 0
  | f + 1, x :: xs, y :: ys =>
      if x = y then levF f xs ys
      else 1 + min (levF f xs (y :: ys)) (min (levF f (x :: xs) ys) (levF f xs ys))

/-- Modelled from the spec: the Levenshtein edit distance used by
`fuzzy_find_in_text` (module `gpt_scientist.citation_checker`, not present in
the sources): minimum number of single-character insertions, deletions, or
substitutions transforming one string into another. -/
def lev (xs ys : Str) : Nat := levF (xs.length + ys.length) xs ys

theorem levF_self : ∀ (f : Nat) (xs : Str), levF f xs xs = 0 := by
  intro f xs
  induction xs generalizing f with
  | nil => cases f <;> rfl
  | cons x xs ih =>
      cases f with
      | zero => rfl
      | succ f => simp [levF, ih]

theorem lev_self (xs : Str) : lev xs xs = 0 := levF_self _ _

theorem levF_eq_zero : ∀ (f : Nat) (xs ys : Str),
    xs.length + ys.length ≤ f → levF f xs ys = 0 → xs = ys := by
  intro f xs
  induction xs generalizing f with
  | nil =>
      intro ys _ h0
      cases ys with
      | nil => rfl
      | cons y ys => cases f <;> simp [levF] at h0
  | cons x xs ih =>
      intro ys hf h0
      cases ys with
      | nil => cases f <;> simp [levF] at h0
      | cons y ys =>
          cases f with
          | zero => simp at hf
          | succ f =>
              by_cases hxy : x = y
              · subst hxy
                simp only [levF, if_pos rfl] at h0
                have : xs.length + ys.length ≤ f := by
                  simp [List.length_cons] at hf; omega
                rw [ih f ys this h0]
              · simp [levF, hxy] at h0

theorem lev_eq_zero {xs ys : Str} (h : lev xs ys = 0) : xs = ys :=
  levF_eq_zero _ _ _ le_rfl h

/-! ### Python-style string replacement

`replaceAll s old new` models Python `s.replace(old, new)`: every
non-overlapping occurrence of `old` in `s`, scanned left to right, is
replaced by `new`.  The empty-pattern case mirrors Python, which inserts
`new` before every character and at the end.  `replaceFirst` is the
first-occurrence variant the specification describes; it is used only to
compare the specified behavior with the implemented one. -/

def startsWith : Str → Str → Bool
  | _, [] => true
  | [], _ :: _ => false
  | c :: s, p :: ps => c = p && startsWith s ps

def replF (o : Char) (os new : Str) : Nat → Str → Str
  | _, [] => []
  | 0, s => s
  | f + 1, c :: rest =>
      if startsWith (c :: rest) (o :: os)
      then new ++ replF o os new f (List.drop os.length rest)
      else c :: replF o os new f rest

def emptyRepl (new : Str) : Str → Str
  | [] => []
  | c :: rest => c :: new ++ emptyRepl new rest

def replaceAll (s old new : Str) : Str :=
  match old with
  | [] => new ++ emptyRepl new s
  | o :: os => replF o os new s.length s

def replFirst (o : Char) (os new : Str) : Str → Str
  | [] => []
  | c :: rest =>
      if startsWith (c :: rest) (o :: os)
      then new ++ List.drop os.length rest
      else c :: replFirst o os new rest

def replaceFirst (s old new : Str) : Str :=
  match old with
  | [] => new ++ s
  | o :: os => replFirst o os new s

theorem startsWith_eq : ∀ (p s : Str), startsWith s p = true → p ++ List.drop p.length s = s := by
  intro p
  induction p with
  | nil => intro s _; simp
  | cons b bs ih =>
      intro s h
      cases s with
      | nil => simp [startsWith] at h
      | cons c rest =>
          simp only [startsWith, Bool.and_eq_true, decide_eq_true_eq] at h
          obtain ⟨hcb, hrest⟩ := h
          subst hcb
          simpa [List.length_cons] using congrArg (c :: ·) (ih rest hrest)

theorem replF_self (o : Char) (os : Str) :
    ∀ (f : Nat) (s : Str), replF o os (o :: os) f s = s := by
  intro f
  induction f with
  | zero => intro s; cases s <;> rfl
  | succ f ih =>
      intro s
      cases s with
      | nil => rfl
      | cons c rest =>
          by_cases h : startsWith (c :: rest) (o :: os)
          · have hdec := startsWith_eq (o :: os) (c :: rest) h
            simp only [replF, if_pos h]
            rw [ih (List.drop os.length rest)]
            simpa [List.length_cons] using hdec
          · simp only [replF, if_neg h]
            rw [ih rest]

theorem emptyRepl_nil : ∀ s : Str, emptyRepl [] s = s := by
  intro s
  induction s with
  | nil => rfl
  | cons c rest ih => simp [emptyRepl, ih]

theorem replaceAll_self (s c : Str) : replaceAll s c c = s := by
  cases c with
  | nil => simp [replaceAll, emptyRepl_nil]
  | cons o os => simpa [replaceAll] using replF_self o os s.length s

/-! ### Citation extraction

Modelled from the spec: `extract_citations` (module
`gpt_scientist.citation_checker`, not present in the sources) scans a block
of generated text and returns, left to right, the contents of spans
enclosed in quotation marks (ASCII or typographic), with the quote
characters stripped and empty spans excluded; unbalanced trailing quotes
yield no span. -/

def isQuoteChar (c : Char) : Bool := c = '"' || c = '“' || c = '”'

def extractLoop : Str → Bool → Str → List Str
  | [], _, _ => []
  | c :: rest, false, acc =>
      if isQuoteChar c then extractLoop rest true [] else extractLoop rest false acc
  | c :: rest, true, acc =>
      if isQuoteChar c then
        if acc = [] then extractLoop rest false []
        else acc :: extractLoop rest false []
      else extractLoop rest true (acc ++ [c])

/-- Modelled from the spec: ordered sequence of quoted spans in the text,
quotes stripped, empty spans excluded. -/
def extract_citations (text : Str) : List Str := extractLoop text false []

/-! ### Approximate matching

Modelled from the spec: `fuzzy_find_in_text` (module
`gpt_scientist.citation_checker`, not present in the sources) computes, over
all contiguous substrings of the haystack, the one minimizing Levenshtein
distance to the needle, preferring the earliest starting offset and then the
shortest length among ties, and reports it together with its distance when
the distance is within the caller-supplied budget; otherwise it reports no
match. -/

def candidates (h : Str) : List Str :=
  (List.range (h.length + 1)).flatMap
    (fun i => (List.range (h.length - i + 1)).map (fun l => (h.drop i).take l))

def pickBest (needle : Str) : List Str → Option (Str × Nat)
  | [] => none
  | c :: cs =>
      match pickBest needle cs with
      | none => some (c, lev needle c)
      | some (b, d) => if lev needle c ≤ d then some (c, lev needle c) else some (b, d)

/-- Modelled from the spec: best approximate occurrence of `needle` in
`haystack` under the `max_distance` budget, or `none` when every contiguous
substring is farther than the budget. -/
def fuzzy_find_in_text (needle haystack : Str) (max_distance : Nat) : Option (Str × Nat) :=
  match pickBest needle (candidates haystack) with
  | none => none
  | some (m, d) => if d ≤ max_distance then some (m, d) else none

theorem pickBest_ne_none (needle : Str) :
    ∀ (l : List Str), l ≠ [] → pickBest needle l ≠ none := by
  intro l hne
  cases l with
  | nil => exact absurd rfl hne
  | cons c cs =>
      cases hrec : pickBest needle cs with
      | none => simp [pickBest, hrec]
      | some bd => obtain ⟨b, d⟩ := bd; simp only [pickBest, hrec]; split <;> simp

theorem pickBest_spec (needle : Str) :
    ∀ (l : List Str) (b : Str) (d : Nat), pickBest needle l = some (b, d) →
      b ∈ l ∧ lev needle b = d ∧ ∀ c ∈ l, d ≤ lev needle c := by
  intro l
  induction l with
  | nil => intro b d h; simp [pickBest] at h
  | cons c cs ih =>
      intro b d h
      cases hrec : pickBest needle cs with
      | none =>
          have hempty : cs = [] := by
            by_contra hne
            exact pickBest_ne_none needle cs hne hrec
          subst hempty
          simp only [pickBest, Option.some.injEq, Prod.mk.injEq] at h
          obtain ⟨hb, hd⟩ := h
          subst hb; subst hd
          refine ⟨List.mem_cons_self _ _, rfl, ?_⟩
          intro c' hc'
          rcases List.mem_cons.mp hc' with h1 | h1
          · subst h1; exact le_rfl
          · simp at h1
      | some bd =>
          obtain ⟨b', d'⟩ := bd
          simp only [pickBest, hrec] at h
          obtain ⟨hmem, hlev, hmin⟩ := ih b' d' hrec
          by_cases hle : lev needle c ≤ d'
          · rw [if_pos hle] at h
            simp only [Option.some.injEq, Prod.mk.injEq] at h
            obtain ⟨hb, hd⟩ := h
            subst hb; subst hd
            refine ⟨List.mem_cons_self _ _, rfl, ?_⟩
            intro c' hc'
            rcases List.mem_cons.mp hc' with h1 | h1
            · subst h1; exact le_rfl
            · have := hmin c' h1; omega
          · rw [if_neg hle] at h
            simp only [Option.some.injEq, Prod.mk.injEq] at h
            obtain ⟨hb, hd⟩ := h
            subst hb; subst hd
            refine ⟨List.mem_cons_of_mem _ hmem, hlev, ?_⟩
            intro c' hc'
            rcases List.mem_cons.mp hc' with h1 | h1
            · subst h1; omega
            · exact hmin c' h1

theorem infix_of_mem_candidates {s h : Str} (hmem : s ∈ candidates h) : s <:+: h := by
  simp only [candidates, List.mem_flatMap, List.mem_map, List.mem_range] at hmem
  obtain ⟨i, _, l, _, rfl⟩ := hmem
  exact ⟨h.take i, (h.drop i).drop l,
    by rw [List.append_assoc, List.take_append_drop, List.take_append_drop]⟩

theorem substring_mem_candidates {s h : Str} (hinf : s <:+: h) : s ∈ candidates h := by
  obtain ⟨t, u, heq⟩ := hinf
  have hlen : h.length = t.length + s.length + u.length := by
    rw [← heq]; simp [List.length_append]; omega
  simp only [candidates, List.mem_flatMap, List.mem_map, List.mem_range]
  refine ⟨t.length, by omega, s.length, by omega, ?_⟩
  have hassoc : t ++ (s ++ u) = h := by rw [← List.append_assoc]; exact heq
  rw [← hassoc, List.drop_left, List.take_left]

theorem candidates_ne_nil (h : Str) : candidates h ≠ [] :=
  List.ne_nil_of_mem (@substring_mem_candidates [] h ⟨[], h, by simp⟩)

theorem fuzzy_some {X H : Str} {d : Nat} {m : Str} {dist : Nat}
    (h : fuzzy_find_in_text X H d = some (m, dist)) :
    dist ≤ d ∧ m <:+: H ∧ lev X m = dist ∧ ∀ s, s <:+: H → dist ≤ lev X s := by
  cases hp : pickBest X (candidates H) with
  | none => simp [fuzzy_find_in_text, hp] at h
  | some bd =>
      obtain ⟨b, d0⟩ := bd
      simp only [fuzzy_find_in_text, hp] at h
      by_cases hle : d0 ≤ d
      · rw [if_pos hle] at h
        simp only [Option.some.injEq, Prod.mk.injEq] at h
        obtain ⟨hb, hd⟩ := h
        subst hb; subst hd
        obtain ⟨hmem, hlev, hmin⟩ := pickBest_spec X (candidates H) b d0 hp
        refine ⟨hle, infix_of_mem_candidates hmem, hlev, ?_⟩
        intro s hs
        exact hmin s (substring_mem_candidates hs)
      · rw [if_neg hle] at h; simp at h

theorem fuzzy_none_of_far {X H : Str} {d : Nat}
    (hfar : ∀ s, s <:+: H → d < lev X s) : fuzzy_find_in_text X H d = none := by
  cases hp : pickBest X (candidates H) with
  | none => simp [fuzzy_find_in_text, hp]
  | some bd =>
      obtain ⟨b, d0⟩ := bd
      obtain ⟨hmem, hlev, _⟩ := pickBest_spec X (candidates H) b d0 hp
      have hgt : d < d0 := hlev ▸ hfar b (infix_of_mem_candidates hmem)
      simp only [fuzzy_find_in_text, hp]
      rw [if_neg (by omega)]

theorem fuzzy_verbatim {X H : Str} (hx : X <:+: H) (d : Nat) :
    fuzzy_find_in_text X H d = some (X, 0) := by
  have hmemX := substring_mem_candidates hx
  cases hp : pickBest X (candidates H) with
  | none => exact absurd hp (pickBest_ne_none _ _ (List.ne_nil_of_mem hmemX))
  | some bd =>
      obtain ⟨b, d0⟩ := bd
      obtain ⟨_, hlev, hmin⟩ := pickBest_spec X (candidates H) b d0 hp
      have hd0 : d0 = 0 := by
        have := hmin X hmemX
        rw [lev_self] at this
        omega
      subst hd0
      have hb : b = X := (lev_eq_zero (by rw [hlev])).symm
      subst hb
      simp only [fuzzy_find_in_text, hp]
      rw [if_pos (Nat.zero_le d)]

/-! ### The dataframe model

A pandas dataframe, as `check_citations` uses it: an index of row labels, a
list of column names, and cell contents keyed by `(row, column)`.  A key
that is present in `index × columns` but has no entry in `cells` reads as
the empty string.  `locGet` models a `data.loc[row, col]` read, which
raises a lookup error when the row label or the column is missing;
`setCell` models a `data.loc[row, col] = v` write to an existing row and
column; `addColumn` models `data[col] = ''`, which (re)fills the whole
column with empty strings. -/

inductive PdError where
  | keyError
deriving DecidableEq

structure DataFrame where
  index : List Nat
  columns : List Str
  cells : List ((Nat × Str) × Str)
deriving DecidableEq

def getCell (df : DataFrame) (r : Nat) (c : Str) : Str :=
  match df.cells.find? (fun p => decide (p.1 = (r, c))) with
  | some p => p.2
  | none => []

def setCell (df : DataFrame) (r : Nat) (c : Str) (v : Str) : DataFrame :=
  if (df.cells.find? (fun p => decide (p.1 = (r, c)))).isSome then
    { df with cells := df.cells.map (fun p => if p.1 = (r, c) then ((r, c), v) else p) }
  else
    { df with cells := df.cells ++ [((r, c), v)] }

def addColumn (df : DataFrame) (c : Str) : DataFrame :=
  { df with
    columns := df.columns ++ [c],
    cells := df.cells.filter (fun p => decide (p.1.2 ≠ c)) ++
      df.index.map (fun r => ((r, c), ([] : Str))) }

def locGet (df : DataFrame) (r : Nat) (c : Str) : Except PdError Str :=
  if r ∈ df.index ∧ c ∈ df.columns then .ok (getCell df r c) else .error .keyError

def fieldsGet (df : DataFrame) (r : Nat) : List Str → Except PdError (List Str)
  | [] => .ok []
  | f :: fs =>
      match locGet df r f with
      | .error e => .error e
      | .ok v =>
          match fieldsGet df r fs with
          | .error e => .error e
          | .ok vs => .ok (v :: vs)

/-! ### The citation-checking driver -/

/-- Translated from `Scientist._verified_field_name`: the name of the column
receiving verification results, derived from the output field name. -/
def verified_field_name (output_field : Str) : Str := output_field ++ "_verified".toList

/-- The separator joining input-field values (`'\n\n'.join(...)`). -/
def blankSep : Str := "\n\n".toList

/-- The sentinel written when no acceptable match exists. -/
def notFoundMarker : Str := "CITATION NOT FOUND".toList

/-- The body of the per-citation loop of `check_citations` (lines 576-589):
replace the citation text (every occurrence, Python `str.replace`) with the
matched substring, or with the marker when the matcher reports no match. -/
def verify_step (max_fuzzy_distance : Nat) (input_text : Str) (verified citation : Str) : Str :=
  match fuzzy_find_in_text citation input_text max_fuzzy_distance with
  | some (res, _) => replaceAll verified citation res
  | none => replaceAll verified citation notFoundMarker

/-- The body of the per-row loop of `check_citations` (lines 571-591): read
the output cell, extract citations, join the input cells with a blank line,
rewrite the output, and store the result in the verified column. -/
def checkRow (max_fuzzy_distance : Nat) (output_field : Str) (input_fields : List Str)
    (data : DataFrame) (row : Nat) : Except PdError DataFrame :=
  match locGet data row output_field with
  | .error e => .error e
  | .ok output =>
      let citations := extract_citations output
      match fieldsGet data row input_fields with
      | .error e => .error e
      | .ok inputs =>
          let input_text := List.intercalate blankSep inputs
          let verified := citations.foldl (verify_step max_fuzzy_distance input_text) output
          .ok (setCell data row (verified_field_name output_field) verified)

/-- The `for row in rows` loop of `check_citations`. -/
def checkRows (max_fuzzy_distance : Nat) (output_field : Str) (input_fields : List Str) :
    DataFrame → List Nat → Except PdError DataFrame
  | data, [] => .ok data
  | data, row :: rest =>
      match checkRow max_fuzzy_distance output_field input_fields data row with
      | .error e => .error e
      | .ok data1 => checkRows max_fuzzy_distance output_field input_fields data1 rest

/-- Translated from `Scientist.check_citations` (lines 558-591).
`max_fuzzy_distance` is the configuration value `self.max_fuzzy_distance`. -/
def check_citations (max_fuzzy_distance : Nat) (data : DataFrame) (output_field : Str)
    (input_fields : List Str) (rows : List Nat) : Except PdError DataFrame :=
  let data1 := if verified_field_name output_field ∈ data.columns then data
               else addColumn data (verified_field_name output_field)
  checkRows max_fuzzy_distance output_field input_fields data1 rows

/-! ### Specification-level descriptions of a row's processing -/

/-- The reference text of a row: its input-field values joined by a blank
line. -/
def reference_text (df : DataFrame) (row : Nat) (input_fields : List Str) : Str :=
  List.intercalate blankSep (input_fields.map (getCell df row))

/-- The verified text computed from an output text and a reference text. -/
def verify_text (max_fuzzy_distance : Nat) (output reference : Str) : Str :=
  (extract_citations output).foldl (verify_step max_fuzzy_distance reference) output

/-- The value `check_citations` stores for a row. -/
def row_value (max_fuzzy_distance : Nat) (output_field : Str) (input_fields : List Str)
    (df : DataFrame) (row : Nat) : Str :=
  verify_text max_fuzzy_distance (getCell df row output_field)
    (reference_text df row input_fields)

/-- Follows the claim's words rather than the code: the same per-citation
step, but substituting only the first occurrence of the citation text. -/
def verify_step_first (max_fuzzy_distance : Nat) (input_text : Str)
    (verified citation : Str) : Str :=
  match fuzzy_find_in_text citation input_text max_fuzzy_distance with
  | some (res, _) => replaceFirst verified citation res
  | none => replaceFirst verified citation notFoundMarker

/-- Follows the claim's words rather than the code: verification by
first-occurrence substitution. -/
def verify_text_first (max_fuzzy_distance : Nat) (output reference : Str) : Str :=
  (extract_citations output).foldl (verify_step_first max_fuzzy_distance reference) output

/-! ### Basic facts about cell reads and writes -/

theorem find_update_same (k : Nat × Str) (v : Str) :
    ∀ l : List ((Nat × Str) × Str),
      (l.find? (fun p => decide (p.1 = k))).isSome →
      (l.map (fun p => if p.1 = k then (k, v) else p)).find? (fun p => decide (p.1 = k)) =
        some (k, v) := by
  intro l
  induction l with
  | nil => intro h; simp at h
  | cons p rest ih =>
      intro h
      by_cases hp : p.1 = k
      · simp only [List.map_cons, if_pos hp]
        exact List.find?_cons_of_pos _ (by simp)
      · simp only [List.map_cons, if_neg hp]
        rw [List.find?_cons_of_neg _ (by simp [hp])]
        apply ih
        rw [List.find?_cons_of_neg _ (by simp [hp])] at h
        exact h

theorem find_update_ne (k k' : Nat × Str) (v : Str) (hkk : k' ≠ k) :
    ∀ l : List ((Nat × Str) × Str),
      (l.map (fun p => if p.1 = k then (k, v) else p)).find? (fun p => decide (p.1 = k')) =
        l.find? (fun p => decide (p.1 = k')) := by
  intro l
  induction l with
  | nil => rfl
  | cons p rest ih =>
      by_cases hp : p.1 = k
      · simp only [List.map_cons, if_pos hp]
        rw [List.find?_cons_of_neg _ (by simp [Ne.symm hkk]),
            List.find?_cons_of_neg _ (by simp [hp, Ne.symm hkk])]
        exact ih
      · simp only [List.map_cons, if_neg hp]
        by_cases hp' : p.1 = k'
        · rw [List.find?_cons_of_pos _ (by simp [hp']), List.find?_cons_of_pos _ (by simp [hp'])]
        · rw [List.find?_cons_of_neg _ (by simp [hp']), List.find?_cons_of_neg _ (by simp [hp'])]
          exact ih

theorem getCell_setCell_same (df : DataFrame) (r : Nat) (c : Str) (v : Str) :
    getCell (setCell df r c v) r c = v := by
  unfold setCell
  by_cases hf : (df.cells.find? (fun p => decide (p.1 = (r, c)))).isSome
  · rw [if_pos hf]
    unfold getCell
    simp only
    rw [find_update_same (r, c) v df.cells hf]
  · rw [if_neg hf]
    unfold getCell
    simp only
    rw [List.find?_append, Option.not_isSome_iff_eq_none.mp hf]
    simp

theorem getCell_setCell_ne (df : DataFrame) (r : Nat) (c : Str) (v : Str) (r' : Nat) (c' : Str)
    (h : (r', c') ≠ (r, c)) : getCell (setCell df r c v) r' c' = getCell df r' c' := by
  unfold setCell
  by_cases hf : (df.cells.find? (fun p => decide (p.1 = (r, c)))).isSome
  · rw [if_pos hf]
    unfold getCell
    simp only
    rw [find_update_ne (r, c) (r', c') v h df.cells]
  · rw [if_neg hf]
    unfold getCell
    simp only
    rw [List.find?_append]
    have h2 : ([((r, c), v)] : List ((Nat × Str) × Str)).find?
        (fun p => decide (p.1 = (r', c'))) = none := by
      simp [Ne.symm h]
    rw [h2]
    simp

theorem index_setCell (df : DataFrame) (r : Nat) (c : Str) (v : Str) :
    (setCell df r c v).index = df.index := by
  unfold setCell; split <;> rfl

theorem columns_setCell (df : DataFrame) (r : Nat) (c : Str) (v : Str) :
    (setCell df r c v).columns = df.columns := by
  unfold setCell; split <;> rfl

theorem setCell_entry_val (df : DataFrame) (r : Nat) (c : Str) (v : Str) :
    ∀ p ∈ (setCell df r c v).cells, p.1 = (r, c) → p.2 = v := by
  intro p hp hk
  unfold setCell at hp
  split at hp
  · rw [List.mem_map] at hp
    obtain ⟨q, hq, himg⟩ := hp
    by_cases hq1 : q.1 = (r, c)
    · rw [if_pos hq1] at himg; rw [← himg]
    · rw [if_neg hq1] at himg; rw [← himg] at hk; exact absurd hk hq1
  · rw [List.mem_append] at hp
    rcases hp with hp | hp
    · rename_i hf
      have := List.find?_eq_none.mp (Option.not_isSome_iff_eq_none.mp hf) p hp
      simp [hk] at this
    · simp at hp
      rw [hp]

theorem setCell_entry_mem_ne (df : DataFrame) (r : Nat) (c : Str) (v : Str) :
    ∀ p ∈ (setCell df r c v).cells, p.1 ≠ (r, c) → p ∈ df.cells := by
  intro p hp hk
  unfold setCell at hp
  split at hp
  · rw [List.mem_map] at hp
    obtain ⟨q, hq, himg⟩ := hp
    by_cases hq1 : q.1 = (r, c)
    · rw [if_pos hq1] at himg; rw [← himg] at hk; simp at hk
    · rw [if_neg hq1] at himg; rw [← himg]; exact hq
  · rw [List.mem_append] at hp
    rcases hp with hp | hp
    · exact hp
    · simp at hp; rw [hp] at hk; simp at hk

theorem setCell_key_mem (df : DataFrame) (r : Nat) (c : Str) (v : Str) :
    ∃ p ∈ (setCell df r c v).cells, p.1 = (r, c) := by
  unfold setCell
  by_cases hf : (df.cells.find? (fun p => decide (p.1 = (r, c)))).isSome
  · rw [if_pos hf]
    rw [List.find?_isSome] at hf
    obtain ⟨q, hq, hqk⟩ := hf
    simp only [decide_eq_true_eq] at hqk
    refine ⟨((r, c), v), ?_, rfl⟩
    rw [List.mem_map]
    exact ⟨q, hq, by rw [if_pos hqk]⟩
  · rw [if_neg hf]
    exact ⟨((r, c), v), by simp, rfl⟩

theorem setCell_key_mem_preserve (df : DataFrame) (r : Nat) (c : Str) (v : Str) (k : Nat × Str)
    (h : ∃ p ∈ df.cells, p.1 = k) : ∃ p ∈ (setCell df r c v).cells, p.1 = k := by
  obtain ⟨q, hq, hqk⟩ := h
  unfold setCell
  by_cases hf : (df.cells.find? (fun p => decide (p.1 = (r, c)))).isSome
  · rw [if_pos hf]
    by_cases hq1 : q.1 = (r, c)
    · refine ⟨((r, c), v), ?_, by rw [← hqk, hq1]⟩
      rw [List.mem_map]
      exact ⟨q, hq, by rw [if_pos hq1]⟩
    · refine ⟨q, ?_, hqk⟩
      rw [List.mem_map]
      exact ⟨q, hq, by rw [if_neg hq1]⟩
  · rw [if_neg hf]
    exact ⟨q, List.mem_append_left _ hq, hqk⟩

theorem setCell_eq_self (df : DataFrame) (r : Nat) (c : Str) (v : Str)
    (hmem : ∃ p ∈ df.cells, p.1 = (r, c))
    (hval : ∀ p ∈ df.cells, p.1 = (r, c) → p.2 = v) : setCell df r c v = df := by
  unfold setCell
  have hf : (df.cells.find? (fun p => decide (p.1 = (r, c)))).isSome := by
    rw [List.find?_isSome]
    obtain ⟨p, hp, hk⟩ := hmem
    exact ⟨p, hp, by simp [hk]⟩
  rw [if_pos hf]
  have hmap : df.cells.map (fun p => if p.1 = (r, c) then ((r, c), v) else p) = df.cells := by
    have harg : ∀ p ∈ df.cells, (fun p => if p.1 = (r, c) then ((r, c), v) else p) p = id p := by
      intro p hp
      show (if p.1 = (r, c) then ((r, c), v) else p) = id p
      by_cases hk : p.1 = (r, c)
      · rw [if_pos hk]
        have h2 := hval p hp hk
        simp only [id]
        rw [← hk, ← h2]
      · rw [if_neg hk]; rfl
    rw [List.map_congr_left harg, List.map_id]
  obtain ⟨idx, cols, cls⟩ := df
  simp only at hmap
  simp [hmap]

theorem index_addColumn (df : DataFrame) (c : Str) : (addColumn df c).index = df.index := rfl

theorem columns_addColumn (df : DataFrame) (c : Str) :
    (addColumn df c).columns = df.columns ++ [c] := rfl

theorem find_filter_ne (c : Str) (key : Nat × Str) (hkc : key.2 ≠ c) :
    ∀ l : List ((Nat × Str) × Str),
      (l.filter (fun p => decide (p.1.2 ≠ c))).find? (fun p => decide (p.1 = key)) =
        l.find? (fun p => decide (p.1 = key)) := by
  intro l
  induction l with
  | nil => rfl
  | cons p rest ih =>
      by_cases hp2 : p.1.2 = c
      · rw [List.filter_cons_of_neg (by simp [hp2])]
        rw [List.find?_cons_of_neg _ (by
          simp only [decide_eq_true_eq]
          intro hk
          rw [hk] at hp2
          exact hkc hp2)]
        exact ih
      · rw [List.filter_cons_of_pos (by simp [hp2])]
        by_cases hpk : p.1 = key
        · rw [List.find?_cons_of_pos _ (by simp [hpk]), List.find?_cons_of_pos _ (by simp [hpk])]
        · rw [List.find?_cons_of_neg _ (by simp [hpk]), List.find?_cons_of_neg _ (by simp [hpk])]
          exact ih

theorem find_filter_self (c : Str) (r : Nat) :
    ∀ l : List ((Nat × Str) × Str),
      (l.filter (fun p => decide (p.1.2 ≠ c))).find? (fun p => decide (p.1 = (r, c))) = none := by
  intro l
  induction l with
  | nil => rfl
  | cons p rest ih =>
      by_cases hp2 : p.1.2 = c
      · rw [List.filter_cons_of_neg (by simp [hp2])]
        exact ih
      · rw [List.filter_cons_of_pos (by simp [hp2])]
        rw [List.find?_cons_of_neg _ (by
          simp only [decide_eq_true_eq]
          intro hk
          rw [hk] at hp2
          exact hp2 rfl)]
        exact ih

theorem getCell_addColumn_ne (df : DataFrame) (c : Str) (r : Nat) (c' : Str) (h : c' ≠ c) :
    getCell (addColumn df c) r c' = getCell df r c' := by
  unfold addColumn getCell
  simp only
  rw [List.find?_append, find_filter_ne c (r, c') h df.cells]
  have happ : (df.index.map (fun r0 => ((r0, c), ([] : Str)))).find?
      (fun p => decide (p.1 = (r, c'))) = none := by
    rw [List.find?_eq_none]
    intro x hx
    rw [List.mem_map] at hx
    obtain ⟨r0, _, himg⟩ := hx
    rw [← himg]
    simp
    intro _
    exact Ne.symm h
  rw [happ]
  cases df.cells.find? (fun a => decide (a.1 = (r, c'))) <;> rfl

theorem getCell_addColumn_self (df : DataFrame) (c : Str) (r : Nat) :
    getCell (addColumn df c) r c = [] := by
  unfold addColumn getCell
  simp only
  rw [List.find?_append, find_filter_self c r df.cells]
  cases hfind : (df.index.map (fun r0 => ((r0, c), ([] : Str)))).find?
      (fun p => decide (p.1 = (r, c))) with
  | none => rfl
  | some p =>
      have hmem := List.mem_of_find?_eq_some hfind
      rw [List.mem_map] at hmem
      obtain ⟨r0, _, himg⟩ := hmem
      rw [← himg]
      rfl

/-! ### Facts about reads of rows and fields -/

theorem locGet_ok_of {df : DataFrame} {r : Nat} {c : Str} (h1 : r ∈ df.index)
    (h2 : c ∈ df.columns) : locGet df r c = .ok (getCell df r c) := by
  unfold locGet; rw [if_pos ⟨h1, h2⟩]

theorem locGet_error_of {df : DataFrame} {r : Nat} {c : Str}
    (h : ¬(r ∈ df.index ∧ c ∈ df.columns)) : locGet df r c = .error .keyError := by
  unfold locGet; rw [if_neg h]

theorem locGet_ok_elim {df : DataFrame} {r : Nat} {c : Str} {v : Str}
    (h : locGet df r c = .ok v) : r ∈ df.index ∧ c ∈ df.columns ∧ v = getCell df r c := by
  unfold locGet at h
  split at h
  · rename_i hmem
    injection h with h'
    exact ⟨hmem.1, hmem.2, h'.symm⟩
  · exact absurd h (by simp)

theorem fieldsGet_ok_of {df : DataFrame} {r : Nat} (h1 : r ∈ df.index) :
    ∀ fs : List Str, (∀ f ∈ fs, f ∈ df.columns) →
      fieldsGet df r fs = .ok (fs.map (getCell df r)) := by
  intro fs
  induction fs with
  | nil => intro _; rfl
  | cons f fs ih =>
      intro h2
      simp only [fieldsGet]
      rw [locGet_ok_of h1 (h2 f (List.mem_cons_self _ _)),
          ih (fun g hg => h2 g (List.mem_cons_of_mem _ hg))]
      rfl

theorem fieldsGet_ok_elim {df : DataFrame} {r : Nat} :
    ∀ {fs : List Str} {vs : List Str}, fieldsGet df r fs = .ok vs →
      vs = fs.map (getCell df r) ∧ ∀ f ∈ fs, f ∈ df.columns := by
  intro fs
  induction fs with
  | nil =>
      intro vs h
      simp only [fieldsGet] at h
      injection h with h'
      exact ⟨h'.symm, by simp⟩
  | cons f fs ih =>
      intro vs h
      simp only [fieldsGet] at h
      cases hl : locGet df r f with
      | error e => rw [hl] at h; exact absurd h (by simp)
      | ok v =>
          rw [hl] at h
          cases hrest : fieldsGet df r fs with
          | error e => rw [hrest] at h; exact absurd h (by simp)
          | ok vs' =>
              rw [hrest] at h
              injection h with h'
              obtain ⟨hv1, hv2, hv3⟩ := locGet_ok_elim hl
              obtain ⟨hr1, hr2⟩ := ih hrest
              refine ⟨?_, ?_⟩
              · rw [← h', hv3, hr1]; rfl
              · intro g hg
                rcases List.mem_cons.mp hg with hg | hg
                · rw [hg]; exact hv2
                · exact hr2 g hg

theorem fieldsGet_error_of_missing {df : DataFrame} {r : Nat} (h1 : r ∈ df.index) :
    ∀ fs : List Str, (∃ f ∈ fs, f ∉ df.columns) → fieldsGet df r fs = .error .keyError := by
  intro fs
  induction fs with
  | nil => intro h; simp at h
  | cons f fs ih =>
      intro h
      simp only [fieldsGet]
      by_cases hf : f ∈ df.columns
      · rw [locGet_ok_of h1 hf]
        have hex : ∃ g ∈ fs, g ∉ df.columns := by
          obtain ⟨g, hg, hgc⟩ := h
          rcases List.mem_cons.mp hg with hg | hg
          · rw [hg] at hgc; exact absurd hf hgc
          · exact ⟨g, hg, hgc⟩
        rw [ih hex]
      · rw [locGet_error_of (fun hand => hf hand.2)]

/-! ### Facts about a single row's processing -/

theorem verified_field_name_ne (f : Str) : verified_field_name f ≠ f := by
  intro h
  have h9 : ("_verified".toList).length = 9 := rfl
  have hlen := congrArg List.length h
  rw [verified_field_name, List.length_append, h9] at hlen
  omega

theorem checkRow_ok_of {maxD : Nat} {oF : Str} {iFs : List Str} {data : DataFrame} {row : Nat}
    (h1 : row ∈ data.index) (h2 : oF ∈ data.columns) (h3 : ∀ f ∈ iFs, f ∈ data.columns) :
    checkRow maxD oF iFs data row =
      .ok (setCell data row (verified_field_name oF) (row_value maxD oF iFs data row)) := by
  have hl := locGet_ok_of h1 h2
  have hg := fieldsGet_ok_of h1 iFs h3
  simp only [checkRow, hl, hg]
  rfl

theorem checkRow_error_of {maxD : Nat} {oF : Str} {iFs : List Str} {data : DataFrame} {row : Nat}
    (h : ¬(row ∈ data.index ∧ oF ∈ data.columns)) :
    checkRow maxD oF iFs data row = .error .keyError := by
  have hl := locGet_error_of h
  simp only [checkRow, hl]

theorem checkRow_error_of_field {maxD : Nat} {oF : Str} {iFs : List Str} {data : DataFrame}
    {row : Nat} (h1 : row ∈ data.index) (h2 : oF ∈ data.columns)
    (h3 : ∃ f ∈ iFs, f ∉ data.columns) :
    checkRow maxD oF iFs data row = .error .keyError := by
  have hl := locGet_ok_of h1 h2
  have hg := fieldsGet_error_of_missing h1 iFs h3
  simp only [checkRow, hl, hg]

theorem checkRow_ok_elim {maxD : Nat} {oF : Str} {iFs : List Str} {data : DataFrame} {row : Nat}
    {df' : DataFrame} (h : checkRow maxD oF iFs data row = .ok df') :
    row ∈ data.index ∧ oF ∈ data.columns ∧ (∀ f ∈ iFs, f ∈ data.columns) ∧
      df' = setCell data row (verified_field_name oF) (row_value maxD oF iFs data row) := by
  by_cases h1 : row ∈ data.index
  · by_cases h2 : oF ∈ data.columns
    · by_cases h3 : ∀ f ∈ iFs, f ∈ data.columns
      · rw [checkRow_ok_of h1 h2 h3] at h
        injection h with h'
        exact ⟨h1, h2, h3, h'.symm⟩
      · push_neg at h3
        rw [checkRow_error_of_field h1 h2 h3] at h
        exact absurd h (by simp)
    · rw [checkRow_error_of (fun hand => h2 hand.2)] at h
      exact absurd h (by simp)
  · rw [checkRow_error_of (fun hand => h1 hand.1)] at h
    exact absurd h (by simp)

theorem row_value_congr (maxD : Nat) (oF : Str) (iFs : List Str)
    (hvf : verified_field_name oF ∉ iFs) (d1 d2 : DataFrame) (r : Nat)
    (h : ∀ c : Str, c ≠ verified_field_name oF → getCell d1 r c = getCell d2 r c) :
    row_value maxD oF iFs d1 r = row_value maxD oF iFs d2 r := by
  unfold row_value verify_text reference_text
  have hoF : getCell d1 r oF = getCell d2 r oF :=
    h oF (fun he => verified_field_name_ne oF he.symm)
  have hmap : iFs.map (getCell d1 r) = iFs.map (getCell d2 r) :=
    List.map_congr_left (fun f hf => h f (fun he => hvf (he ▸ hf)))
  rw [hoF, hmap]

/-! ### Invariants of the row loop -/

theorem checkRows_frame {maxD : Nat} {oF : Str} {iFs : List Str} :
    ∀ (rows : List Nat) (df df' : DataFrame),
      checkRows maxD oF iFs df rows = .ok df' →
      df'.index = df.index ∧ df'.columns = df.columns ∧
      (∀ (r : Nat) (c : Str), c ≠ verified_field_name oF → getCell df' r c = getCell df r c) ∧
      (∀ r : Nat, r ∉ rows →
        getCell df' r (verified_field_name oF) = getCell df r (verified_field_name oF)) := by
  intro rows
  induction rows with
  | nil =>
      intro df df' h
      simp only [checkRows] at h
      injection h with h'
      subst h'
      exact ⟨rfl, rfl, fun _ _ _ => rfl, fun _ _ => rfl⟩
  | cons r0 rest ih =>
      intro df df' h
      simp only [checkRows] at h
      cases hcr : checkRow maxD oF iFs df r0 with
      | error e => rw [hcr] at h; exact absurd h (by simp)
      | ok d1 =>
          rw [hcr] at h
          obtain ⟨_, _, _, hd1⟩ := checkRow_ok_elim hcr
          obtain ⟨hidx, hcols, hcells, huntouched⟩ := ih d1 df' h
          subst hd1
          refine ⟨?_, ?_, ?_, ?_⟩
          · rw [hidx, index_setCell]
          · rw [hcols, columns_setCell]
          · intro r c hc
            rw [hcells r c hc]
            exact getCell_setCell_ne df r0 (verified_field_name oF)
              (row_value maxD oF iFs df r0) r c (fun he => hc (congrArg Prod.snd he))
          · intro r hr
            have hr0 : r ≠ r0 := fun he => hr (he ▸ List.mem_cons_self _ _)
            have hrest : r ∉ rest := fun he => hr (List.mem_cons_of_mem _ he)
            rw [huntouched r hrest]
            exact getCell_setCell_ne df r0 (verified_field_name oF)
              (row_value maxD oF iFs df r0) r (verified_field_name oF)
              (fun he => hr0 (congrArg Prod.fst he))

theorem checkRows_ok_of {maxD : Nat} {oF : Str} {iFs : List Str} :
    ∀ (rows : List Nat) (df : DataFrame),
      (∀ r ∈ rows, r ∈ df.index) → oF ∈ df.columns → (∀ f ∈ iFs, f ∈ df.columns) →
      ∃ df', checkRows maxD oF iFs df rows = .ok df' := by
  intro rows
  induction rows with
  | nil => intro df _ _ _; exact ⟨df, rfl⟩
  | cons r0 rest ih =>
      intro df h1 h2 h3
      have hcr := @checkRow_ok_of maxD oF iFs df r0 (h1 r0 (List.mem_cons_self _ _)) h2 h3
      obtain ⟨df', hdf'⟩ := ih (setCell df r0 (verified_field_name oF)
          (row_value maxD oF iFs df r0))
        (fun r hr => by rw [index_setCell]; exact h1 r (List.mem_cons_of_mem _ hr))
        (by rw [columns_setCell]; exact h2)
        (fun f hf => by rw [columns_setCell]; exact h3 f hf)
      refine ⟨df', ?_⟩
      simp only [checkRows, hcr]
      exact hdf'

theorem checkRows_error_of {maxD : Nat} {oF : Str} {iFs : List Str} :
    ∀ (rows : List Nat) (df : DataFrame),
      oF ∈ df.columns → (∀ f ∈ iFs, f ∈ df.columns) →
      (∃ r ∈ rows, r ∉ df.index) →
      checkRows maxD oF iFs df rows = .error .keyError := by
  intro rows
  induction rows with
  | nil => intro df _ _ h; simp at h
  | cons r0 rest ih =>
      intro df h2 h3 hex
      by_cases hr0 : r0 ∈ df.index
      · have hcr := @checkRow_ok_of maxD oF iFs df r0 hr0 h2 h3
        simp only [checkRows, hcr]
        apply ih
        · rw [columns_setCell]; exact h2
        · intro f hf; rw [columns_setCell]; exact h3 f hf
        · obtain ⟨r, hr, hrn⟩ := hex
          rcases List.mem_cons.mp hr with he | he
          · rw [he] at hrn; exact absurd hr0 hrn
          · exact ⟨r, he, by rw [index_setCell]; exact hrn⟩
      · have hcr := @checkRow_error_of maxD oF iFs df r0 (fun hand => hr0 hand.1)
        simp only [checkRows, hcr]

theorem checkRows_value {maxD : Nat} {oF : Str} {iFs : List Str}
    (hvf : verified_field_name oF ∉ iFs) :
    ∀ (rows : List Nat) (df df' : DataFrame),
      checkRows maxD oF iFs df rows = .ok df' →
      ∀ r ∈ rows, getCell df' r (verified_field_name oF) = row_value maxD oF iFs df r := by
  intro rows
  induction rows with
  | nil => intro df df' _ r hr; simp at hr
  | cons r0 rest ih =>
      intro df df' h r hr
      simp only [checkRows] at h
      cases hcr : checkRow maxD oF iFs df r0 with
      | error e => rw [hcr] at h; exact absurd h (by simp)
      | ok d1 =>
          rw [hcr] at h
          obtain ⟨_, _, _, hd1⟩ := checkRow_ok_elim hcr
          subst hd1
          have hframe : ∀ (rr : Nat) (c : Str), c ≠ verified_field_name oF →
              getCell (setCell df r0 (verified_field_name oF)
                (row_value maxD oF iFs df r0)) rr c = getCell df rr c :=
            fun rr c hc => getCell_setCell_ne df r0 (verified_field_name oF)
              (row_value maxD oF iFs df r0) rr c (fun he => hc (congrArg Prod.snd he))
          rcases List.mem_cons.mp hr with he | he
          · subst he
            by_cases hrest : r ∈ rest
            · rw [ih _ df' h r hrest]
              exact row_value_congr maxD oF iFs hvf _ df r (fun c hc => hframe r c hc)
            · obtain ⟨_, _, _, huntouched⟩ := checkRows_frame rest _ df' h
              rw [huntouched r hrest, getCell_setCell_same]
          · rw [ih _ df' h r he]
            exact row_value_congr maxD oF iFs hvf _ df r (fun c hc => hframe r c hc)

theorem checkRows_presence {maxD : Nat} {oF : Str} {iFs : List Str} :
    ∀ (rows : List Nat) (df df' : DataFrame),
      checkRows maxD oF iFs df rows = .ok df' →
      ∀ r ∈ rows, r ∈ df.index ∧ oF ∈ df.columns ∧ ∀ f ∈ iFs, f ∈ df.columns := by
  intro rows
  induction rows with
  | nil => intro df df' _ r hr; simp at hr
  | cons r0 rest ih =>
      intro df df' h r hr
      simp only [checkRows] at h
      cases hcr : checkRow maxD oF iFs df r0 with
      | error e => rw [hcr] at h; exact absurd h (by simp)
      | ok d1 =>
          rw [hcr] at h
          obtain ⟨hidx0, hcol0, hflds0, hd1⟩ := checkRow_ok_elim hcr
          rcases List.mem_cons.mp hr with he | he
          · rw [he]; exact ⟨hidx0, hcol0, hflds0⟩
          · obtain ⟨hidx, hcol, hflds⟩ := ih d1 df' h r he
            subst hd1
            rw [index_setCell] at hidx
            rw [columns_setCell] at hcol
            refine ⟨hidx, hcol, fun f hf => ?_⟩
            have := hflds f hf
            rw [columns_setCell] at this
            exact this

/-! ### Entry uniformity, used for idempotence -/

theorem getCell_eq_of_entries (df : DataFrame) (r : Nat) (c : Str) (v : Str)
    (h1 : ∃ p ∈ df.cells, p.1 = (r, c))
    (h2 : ∀ p ∈ df.cells, p.1 = (r, c) → p.2 = v) : getCell df r c = v := by
  unfold getCell
  cases hfind : df.cells.find? (fun p => decide (p.1 = (r, c))) with
  | none =>
      rw [List.find?_eq_none] at hfind
      obtain ⟨p, hp, hk⟩ := h1
      have := hfind p hp
      simp [hk] at this
  | some p =>
      have hkp : p.1 = (r, c) := by simpa using List.find?_some hfind
      exact h2 p (List.mem_of_find?_eq_some hfind) hkp

theorem keyAt_preserve (df : DataFrame) (r : Nat) (c : Str) (v : Str) (k : Nat × Str) (w : Str)
    (hk : k ≠ (r, c))
    (h : (∃ p ∈ df.cells, p.1 = k) ∧ ∀ p ∈ df.cells, p.1 = k → p.2 = w) :
    (∃ p ∈ (setCell df r c v).cells, p.1 = k) ∧
      ∀ p ∈ (setCell df r c v).cells, p.1 = k → p.2 = w := by
  refine ⟨setCell_key_mem_preserve df r c v k h.1, ?_⟩
  intro p hp hpk
  exact h.2 p (setCell_entry_mem_ne df r c v p hp (fun he => hk (hpk ▸ he ▸ rfl))) hpk

theorem checkRows_keyAt_preserve {maxD : Nat} {oF : Str} {iFs : List Str} :
    ∀ (rows : List Nat) (df df' : DataFrame),
      checkRows maxD oF iFs df rows = .ok df' →
      ∀ (r : Nat) (v : Str), r ∉ rows →
        ((∃ p ∈ df.cells, p.1 = (r, verified_field_name oF)) ∧
          ∀ p ∈ df.cells, p.1 = (r, verified_field_name oF) → p.2 = v) →
        (∃ p ∈ df'.cells, p.1 = (r, verified_field_name oF)) ∧
          ∀ p ∈ df'.cells, p.1 = (r, verified_field_name oF) → p.2 = v := by
  intro rows
  induction rows with
  | nil =>
      intro df df' h r v _ hat
      simp only [checkRows] at h
      injection h with h'
      subst h'
      exact hat
  | cons r0 rest ih =>
      intro df df' h r v hr hat
      simp only [checkRows] at h
      cases hcr : checkRow maxD oF iFs df r0 with
      | error e => rw [hcr] at h; exact absurd h (by simp)
      | ok d1 =>
          rw [hcr] at h
          obtain ⟨_, _, _, hd1⟩ := checkRow_ok_elim hcr
          subst hd1
          have hr0 : r ≠ r0 := fun he => hr (he ▸ List.mem_cons_self _ _)
          have hrest : r ∉ rest := fun he => hr (List.mem_cons_of_mem _ he)
          exact ih _ df' h r v hrest
            (keyAt_preserve df r0 (verified_field_name oF) _ _ v
              (fun he => hr0 (congrArg Prod.fst he)) hat)

theorem checkRows_entries {maxD : Nat} {oF : Str} {iFs : List Str} :
    ∀ (rows : List Nat) (df df' : DataFrame),
      checkRows maxD oF iFs df rows = .ok df' →
      ∀ r ∈ rows, ∃ v,
        (∃ p ∈ df'.cells, p.1 = (r, verified_field_name oF)) ∧
          ∀ p ∈ df'.cells, p.1 = (r, verified_field_name oF) → p.2 = v := by
  intro rows
  induction rows with
  | nil => intro df df' _ r hr; simp at hr
  | cons r0 rest ih =>
      intro df df' h r hr
      simp only [checkRows] at h
      cases hcr : checkRow maxD oF iFs df r0 with
      | error e => rw [hcr] at h; exact absurd h (by simp)
      | ok d1 =>
          rw [hcr] at h
          obtain ⟨_, _, _, hd1⟩ := checkRow_ok_elim hcr
          by_cases hrest : r ∈ rest
          · exact ih d1 df' h r hrest
          · rcases List.mem_cons.mp hr with he | he
            · subst he
              refine ⟨row_value maxD oF iFs df r, ?_⟩
              apply checkRows_keyAt_preserve rest d1 df' h r _ hrest
              subst hd1
              exact ⟨setCell_key_mem df r (verified_field_name oF) _,
                setCell_entry_val df r (verified_field_name oF) _⟩
            · exact absurd he hrest

theorem checkRows_fix {maxD : Nat} {oF : Str} {iFs : List Str} :
    ∀ (rows : List Nat) (df : DataFrame),
      (∀ r ∈ rows, r ∈ df.index) → oF ∈ df.columns → (∀ f ∈ iFs, f ∈ df.columns) →
      (∀ r ∈ rows, setCell df r (verified_field_name oF) (row_value maxD oF iFs df r) = df) →
      checkRows maxD oF iFs df rows = .ok df := by
  intro rows
  induction rows with
  | nil => intro df _ _ _ _; rfl
  | cons r0 rest ih =>
      intro df h1 h2 h3 h4
      have hcr := @checkRow_ok_of maxD oF iFs df r0 (h1 r0 (List.mem_cons_self _ _)) h2 h3
      rw [h4 r0 (List.mem_cons_self _ _)] at hcr
      simp only [checkRows, hcr]
      exact ih df (fun r hr => h1 r (List.mem_cons_of_mem _ hr)) h2 h3
        (fun r hr => h4 r (List.mem_cons_of_mem _ hr))

/-! ### The column-creation step of check_citations -/

theorem pre_vf_mem (df : DataFrame) (oF : Str) :
    verified_field_name oF ∈ (if verified_field_name oF ∈ df.columns then df
      else addColumn df (verified_field_name oF)).columns := by
  split
  · rename_i hmem; exact hmem
  · rw [columns_addColumn]; exact List.mem_append_right _ (by simp)

theorem pre_index (df : DataFrame) (oF : Str) :
    (if verified_field_name oF ∈ df.columns then df
      else addColumn df (verified_field_name oF)).index = df.index := by
  split
  · rfl
  · rw [index_addColumn]

theorem pre_getCell_ne (df : DataFrame) (oF : Str) (r : Nat) (c : Str)
    (hc : c ≠ verified_field_name oF) :
    getCell (if verified_field_name oF ∈ df.columns then df
      else addColumn df (verified_field_name oF)) r c = getCell df r c := by
  split
  · rfl
  · exact getCell_addColumn_ne df (verified_field_name oF) r c hc

theorem pre_columns_mem (df : DataFrame) (oF : Str) (c : Str) (hc : c ∈ df.columns) :
    c ∈ (if verified_field_name oF ∈ df.columns then df
      else addColumn df (verified_field_name oF)).columns := by
  split
  · exact hc
  · rw [columns_addColumn]; exact List.mem_append_left _ hc

theorem verify_fold_id (maxD : Nat) (ref : Str) :
    ∀ (l : List Str) (v : Str), (∀ cit ∈ l, cit <:+: ref) →
      l.foldl (verify_step maxD ref) v = v := by
  intro l
  induction l with
  | nil => intro v _; rfl
  | cons cit l ih =>
      intro v hall
      have hstep : verify_step maxD ref v cit = v := by
        unfold verify_step
        rw [fuzzy_verbatim (hall cit (List.mem_cons_self _ _)) maxD]
        exact replaceAll_self v cit
      rw [List.foldl_cons, hstep]
      exact ih v (fun c hc => hall c (List.mem_cons_of_mem _ hc))

/-! ### Concrete dataframes used in counterexamples and witnesses -/

def exOutputField : Str := ['o']

def exInputField : Str := ['i']

/-- A row whose output text `q"bc" bc` repeats the citation text `bc`
outside the quotes, and whose reference text `zz` matches nothing. -/
def dfA : DataFrame :=
  { index := [0], columns := [exOutputField, exInputField],
    cells := [((0, exOutputField), "q\"bc\" bc".toList), ((0, exInputField), "zz".toList)] }

/-- The dataframe `check_citations` produces from `dfA`. -/
def dfA1 : DataFrame :=
  match check_citations 1 dfA exOutputField [exInputField] [0] with
  | .ok d => d
  | .error _ => dfA

/-- A row whose output cell is the empty string. -/
def dfB : DataFrame :=
  { index := [0], columns := [exOutputField, exInputField],
    cells := [((0, exOutputField), []), ((0, exInputField), [])] }

/-- A row whose single citation `ab` occurs verbatim in the reference text. -/
def dfC : DataFrame :=
  { index := [0], columns := [exOutputField, exInputField],
    cells := [((0, exOutputField), "t\"ab\"u".toList), ((0, exInputField), "zabz".toList)] }

/-- The dataframe `check_citations` produces from `dfC`. -/
def dfC1 : DataFrame :=
  match check_citations 30 dfC exOutputField [exInputField] [0] with
  | .ok d => d
  | .error _ => dfC

/-- A row whose single citation `ab` has no acceptable match in the
reference text `q` under budget 0. -/
def dfD : DataFrame :=
  { index := [0], columns := [exOutputField, exInputField],
    cells := [((0, exOutputField), "w\"ab\"".toList), ((0, exInputField), "q".toList)] }

/-! ### The claims -/

/-- C3 (confirmed): `fuzzy_find_in_text X H d` returns `some (m, dist)` only
when `dist` is the minimum Levenshtein edit distance (unit-cost insertions,
deletions, substitutions) between `X` and any contiguous substring of `H`
and `dist ≤ d`; it returns `none` when that minimum exceeds `d`; and it
returns `some (X, 0)` whenever `X` occurs verbatim in `H`. -/
theorem c3_fuzzy_find_spec (X H : Str) (d : Nat) :
    (∀ (m : Str) (dist : Nat), fuzzy_find_in_text X H d = some (m, dist) →
      dist ≤ d ∧ m <:+: H ∧ lev X m = dist ∧ ∀ s, s <:+: H → dist ≤ lev X s) ∧
    ((∀ s, s <:+: H → d < lev X s) → fuzzy_find_in_text X H d = none) ∧
    (X <:+: H → fuzzy_find_in_text X H d = some (X, 0)) :=
  ⟨fun _ _ h => fuzzy_some h, fuzzy_none_of_far, fun hx => fuzzy_verbatim hx d⟩

theorem c3_witness :
    fuzzy_find_in_text "ab".toList "xaby".toList 5 = some ("ab".toList, 0) :=
  (c3_fuzzy_find_spec "ab".toList "xaby".toList 5).2.2 ⟨['x'], ['y'], by decide⟩

/-- C10 (confirmed): a row index in `rows` that is not a label of the
dataframe's index makes `check_citations` raise a lookup error (pandas
`data.loc`) instead of skipping the row: there is no bounds check before
the read. -/
theorem c10_missing_row_raises (maxD : Nat) (df : DataFrame) (oF : Str) (iFs : List Str)
    (rows : List Nat) (r : Nat) (h2 : oF ∈ df.columns) (h3 : ∀ f ∈ iFs, f ∈ df.columns)
    (hr : r ∈ rows) (hmiss : r ∉ df.index) :
    check_citations maxD df oF iFs rows = .error .keyError := by
  show checkRows maxD oF iFs (if verified_field_name oF ∈ df.columns then df
    else addColumn df (verified_field_name oF)) rows = .error .keyError
  apply checkRows_error_of
  · exact pre_columns_mem df oF oF h2
  · intro f hf; exact pre_columns_mem df oF f (h3 f hf)
  · refine ⟨r, hr, ?_⟩
    rw [pre_index]
    exact hmiss

theorem c10_witness :
    check_citations 1 dfB exOutputField [exInputField] [3] = .error .keyError :=
  c10_missing_row_raises 1 dfB exOutputField [exInputField] [3] 3
    (by decide) (by decide) (by decide) (by decide)

/-- C9 (confirmed): `check_citations` modifies only the derived
`{output_field}_verified` column: the index and every cell of every other
column are unchanged, and within the verified column the cells of rows not
listed in `rows` are unchanged, except that the column reads as empty
strings when it had to be created. -/
theorem c9_frame (maxD : Nat) (df df' : DataFrame) (oF : Str) (iFs : List Str)
    (rows : List Nat) (h : check_citations maxD df oF iFs rows = .ok df') :
    df'.index = df.index ∧
    (∀ (r : Nat) (c : Str), c ≠ verified_field_name oF → getCell df' r c = getCell df r c) ∧
    (∀ r : Nat, r ∉ rows → getCell df' r (verified_field_name oF) =
      (if verified_field_name oF ∈ df.columns then getCell df r (verified_field_name oF)
       else [])) := by
  have h1 : checkRows maxD oF iFs (if verified_field_name oF ∈ df.columns then df
      else addColumn df (verified_field_name oF)) rows = .ok df' := h
  obtain ⟨hidx, _, hcells, hun⟩ := checkRows_frame rows _ df' h1
  refine ⟨by rw [hidx, pre_index], ?_, ?_⟩
  · intro r c hc
    rw [hcells r c hc, pre_getCell_ne df oF r c hc]
  · intro r hr
    rw [hun r hr]
    by_cases hA : verified_field_name oF ∈ df.columns
    · rw [if_pos hA, if_pos hA]
    · rw [if_neg hA, if_neg hA]
      exact getCell_addColumn_self df (verified_field_name oF) r

theorem c9_witness : dfA1.index = dfA.index :=
  (c9_frame 1 dfA dfA1 exOutputField [exInputField] [0] (by rfl)).1

/-- C8 (confirmed): the verified text is written into a sibling column whose
name is derived from the output field's name by the fixed suffix convention
`{output_field}_verified`; no cell outside that column changes. -/
theorem c8_verified_column_name (maxD : Nat) (df df' : DataFrame) (oF : Str) (iFs : List Str)
    (rows : List Nat) (h : check_citations maxD df oF iFs rows = .ok df') :
    verified_field_name oF = oF ++ "_verified".toList ∧
    ∀ (r : Nat) (c : Str), getCell df' r c ≠ getCell df r c → c = oF ++ "_verified".toList := by
  refine ⟨rfl, ?_⟩
  intro r c hne
  by_contra hc
  have h1 : checkRows maxD oF iFs (if verified_field_name oF ∈ df.columns then df
      else addColumn df (verified_field_name oF)) rows = .ok df' := h
  obtain ⟨_, _, hcells, _⟩ := checkRows_frame rows _ df' h1
  exact hne (by rw [hcells r c (fun he => hc he), pre_getCell_ne df oF r c (fun he => hc he)])

theorem c8_witness : verified_field_name exOutputField = exOutputField ++ "_verified".toList :=
  (c8_verified_column_name 1 dfA dfA1 exOutputField [exInputField] [0] (by rfl)).1

/-- C2 (counterexample): the driver does not perform a first-occurrence
substitution: Python `str.replace` replaces every occurrence of the
citation's inner text, so on the row of `dfA`, whose output `q"bc" bc`
repeats the citation text outside the quotes, the verified cell differs
from the first-occurrence verification the claim describes. -/
theorem c2_counterexample :
    (check_citations 1 dfA exOutputField [exInputField] [0]).map
        (fun d => getCell d 0 (verified_field_name exOutputField)) =
      .ok "q\"CITATION NOT FOUND\" CITATION NOT FOUND".toList ∧
    verify_text_first 1 (getCell dfA 0 exOutputField) (reference_text dfA 0 [exInputField]) =
      "q\"CITATION NOT FOUND\" bc".toList ∧
    "q\"CITATION NOT FOUND\" CITATION NOT FOUND".toList ≠
      "q\"CITATION NOT FOUND\" bc".toList :=
  ⟨by rfl, by rfl, by decide⟩

/-- C2 (corrected): for every processed row the driver builds the reference
text by joining the row's input-field values with a blank line, extracts
citations from the row's output field, and for each citation in extraction
order replaces every occurrence (not only the first) of the citation's
inner text — the quote characters are not part of the replacement — with
either the matched substring or the NotFound marker. -/
theorem c2_row_pipeline (maxD : Nat) (df df' : DataFrame) (oF : Str) (iFs : List Str)
    (rows : List Nat) (r : Nat) (h : check_citations maxD df oF iFs rows = .ok df')
    (hvf : verified_field_name oF ∉ iFs) (hr : r ∈ rows) :
    getCell df' r (verified_field_name oF) =
      (extract_citations (getCell df r oF)).foldl
        (fun verified citation =>
          match fuzzy_find_in_text citation
              (List.intercalate blankSep (iFs.map (getCell df r))) maxD with
          | some (res, _) => replaceAll verified citation res
          | none => replaceAll verified citation notFoundMarker)
        (getCell df r oF) := by
  have h1 : checkRows maxD oF iFs (if verified_field_name oF ∈ df.columns then df
      else addColumn df (verified_field_name oF)) rows = .ok df' := h
  rw [checkRows_value hvf rows _ df' h1 r hr,
      row_value_congr maxD oF iFs hvf _ df r (fun c hc => pre_getCell_ne df oF r c hc)]
  rfl

theorem c2_witness :
    getCell dfA1 0 (verified_field_name exOutputField) =
      (extract_citations (getCell dfA 0 exOutputField)).foldl
        (fun verified citation =>
          match fuzzy_find_in_text citation
              (List.intercalate blankSep ([exInputField].map (getCell dfA 0))) 1 with
          | some (res, _) => replaceAll verified citation res
          | none => replaceAll verified citation notFoundMarker)
        (getCell dfA 0 exOutputField) :=
  c2_row_pipeline 1 dfA dfA1 exOutputField [exInputField] [0] 0 (by rfl) (by decide) (by decide)

/-- C1 (counterexample): the verified text does not always leave non-citation
characters unchanged: on the row of `dfA` the output is `q"bc" bc`, its only
extracted citation is `bc` (characters 2-3), and its non-citation suffix
(everything after the closing quote) is ` bc`; the claim therefore forces
the verified text to retain ` bc` as a suffix, but the unmatched citation
makes `str.replace` rewrite both occurrences of `bc`, and the suffix is
gone. -/
theorem c1_counterexample :
    getCell dfA 0 exOutputField = "q\"bc\" bc".toList ∧
    extract_citations (getCell dfA 0 exOutputField) = ["bc".toList] ∧
    List.drop 5 (getCell dfA 0 exOutputField) = " bc".toList ∧
    (check_citations 1 dfA exOutputField [exInputField] [0]).map
        (fun d => getCell d 0 (verified_field_name exOutputField)) =
      .ok "q\"CITATION NOT FOUND\" CITATION NOT FOUND".toList ∧
    ¬ " bc".toList <:+ "q\"CITATION NOT FOUND\" CITATION NOT FOUND".toList :=
  ⟨by rfl, by rfl, by rfl, by rfl, by decide⟩

/-- C1 (corrected): substitution is by value over the whole output text, so
non-citation text is only guaranteed unchanged when every replacement equals
the cited text itself: when every extracted citation occurs verbatim in the
reference text, the verified text equals the output text, and in particular
it has the same citation count and ordering and its non-citation characters
are unchanged. -/
theorem c1_verified_preserved_of_exact (maxD : Nat) (df df' : DataFrame) (oF : Str)
    (iFs : List Str) (rows : List Nat) (r : Nat)
    (h : check_citations maxD df oF iFs rows = .ok df')
    (hvf : verified_field_name oF ∉ iFs) (hr : r ∈ rows)
    (hexact : ∀ cit ∈ extract_citations (getCell df r oF),
      cit <:+: reference_text df r iFs) :
    getCell df' r (verified_field_name oF) = getCell df r oF ∧
    extract_citations (getCell df' r (verified_field_name oF)) =
      extract_citations (getCell df r oF) := by
  have h1 : checkRows maxD oF iFs (if verified_field_name oF ∈ df.columns then df
      else addColumn df (verified_field_name oF)) rows = .ok df' := h
  have hval : getCell df' r (verified_field_name oF) = row_value maxD oF iFs df r := by
    rw [checkRows_value hvf rows _ df' h1 r hr,
        row_value_congr maxD oF iFs hvf _ df r (fun c hc => pre_getCell_ne df oF r c hc)]
  have hid : row_value maxD oF iFs df r = getCell df r oF := by
    unfold row_value verify_text
    exact verify_fold_id maxD (reference_text df r iFs) _ _ hexact
  refine ⟨by rw [hval, hid], by rw [hval, hid]⟩

theorem c1_witness :
    getCell dfC1 0 (verified_field_name exOutputField) = getCell dfC 0 exOutputField ∧
    extract_citations (getCell dfC1 0 (verified_field_name exOutputField)) =
      extract_citations (getCell dfC 0 exOutputField) :=
  c1_verified_preserved_of_exact 30 dfC dfC1 exOutputField [exInputField] [0] 0
    (by rfl) (by decide) (by decide)
    (by
      intro cit hc
      rw [show extract_citations (getCell dfC 0 exOutputField) = ["ab".toList] from rfl] at hc
      rw [List.mem_singleton.mp hc]
      exact ⟨['z'], ['z'], by decide⟩)

/-- C7 (confirmed): a row whose output text contains exactly one citation,
occurring verbatim in the reference text (matcher distance 0), keeps its
output text unchanged: the verified cell equals the original output text. -/
theorem c7_roundtrip_exact (maxD : Nat) (df df' : DataFrame) (oF : Str) (iFs : List Str)
    (rows : List Nat) (r : Nat) (cit : Str)
    (h : check_citations maxD df oF iFs rows = .ok df')
    (hvf : verified_field_name oF ∉ iFs) (hr : r ∈ rows)
    (hone : extract_citations (getCell df r oF) = [cit])
    (hexact : cit <:+: reference_text df r iFs) :
    getCell df' r (verified_field_name oF) = getCell df r oF := by
  have h1 : checkRows maxD oF iFs (if verified_field_name oF ∈ df.columns then df
      else addColumn df (verified_field_name oF)) rows = .ok df' := h
  rw [checkRows_value hvf rows _ df' h1 r hr,
      row_value_congr maxD oF iFs hvf _ df r (fun c hc => pre_getCell_ne df oF r c hc)]
  unfold row_value verify_text
  apply verify_fold_id
  intro c hc
  rw [hone] at hc
  rw [List.mem_singleton.mp hc]
  exact hexact

theorem c7_witness :
    getCell dfC1 0 (verified_field_name exOutputField) = getCell dfC 0 exOutputField :=
  c7_roundtrip_exact 30 dfC dfC1 exOutputField [exInputField] [0] 0 "ab".toList
    (by rfl) (by decide) (by decide) (by rfl) ⟨['z'], ['z'], by decide⟩

/-- C4 (confirmed): running `check_citations` twice with unchanged
output-field and input-field values (in particular, the verified column is
not among the input fields, since the first run changes it) produces
byte-identical results: the second run recomputes the same verified text
from the untouched output and input cells and fully overwrites each
verified cell with it, leaving the dataframe exactly as it was. -/
theorem c4_idempotent (maxD : Nat) (df df' : DataFrame) (oF : Str) (iFs : List Str)
    (rows : List Nat) (hvf : verified_field_name oF ∉ iFs)
    (h : check_citations maxD df oF iFs rows = .ok df') :
    check_citations maxD df' oF iFs rows = .ok df' := by
  have h1 : checkRows maxD oF iFs (if verified_field_name oF ∈ df.columns then df
      else addColumn df (verified_field_name oF)) rows = .ok df' := h
  obtain ⟨hidx, hcols, hcells, hun⟩ := checkRows_frame rows _ df' h1
  have hvfc : verified_field_name oF ∈ df'.columns := by rw [hcols]; exact pre_vf_mem df oF
  show checkRows maxD oF iFs (if verified_field_name oF ∈ df'.columns then df'
      else addColumn df' (verified_field_name oF)) rows = .ok df'
  rw [if_pos hvfc]
  cases rows with
  | nil =>
      simp only [checkRows] at h1
      injection h1 with h1'
      rw [← h1']
      rfl
  | cons r0 rest =>
      apply checkRows_fix (r0 :: rest) df'
      · intro r hr
        rw [hidx]
        exact (checkRows_presence (r0 :: rest) _ df' h1 r hr).1
      · rw [hcols]
        exact (checkRows_presence (r0 :: rest) _ df' h1 r0 (List.mem_cons_self _ _)).2.1
      · intro f hf
        rw [hcols]
        exact (checkRows_presence (r0 :: rest) _ df' h1 r0 (List.mem_cons_self _ _)).2.2 f hf
      · intro r hr
        obtain ⟨v, hkmem, hkval⟩ := checkRows_entries (r0 :: rest) _ df' h1 r hr
        have hget : getCell df' r (verified_field_name oF) = v :=
          getCell_eq_of_entries df' r (verified_field_name oF) v hkmem hkval
        have hrv : row_value maxD oF iFs df' r = getCell df' r (verified_field_name oF) := by
          rw [row_value_congr maxD oF iFs hvf df' _ r (fun c hc => hcells r c hc)]
          exact (checkRows_value hvf (r0 :: rest) _ df' h1 r hr).symm
        rw [hrv, hget]
        exact setCell_eq_self df' r (verified_field_name oF) v hkmem hkval

theorem c4_witness : check_citations 1 dfA1 exOutputField [exInputField] [0] = .ok dfA1 :=
  c4_idempotent 1 dfA dfA1 exOutputField [exInputField] [0] (by decide) (by rfl)

/-- C5 (counterexample): a row whose output-field cell is absent — the row
label is not in the dataframe's index — is not a no-op: `check_citations`
raises a lookup error, aborting the whole batch. -/
theorem c5_counterexample :
    (1 : Nat) ∉ dfB.index ∧
    check_citations 1 dfB exOutputField [exInputField] [1] = .error .keyError :=
  ⟨by decide, by rfl⟩

/-- C5 (corrected): for rows that are present in the dataframe (and with all
referenced columns present), an empty output cell is harmless: the batch
completes without raising and the row's verified cell is written as the
empty string.  A row whose output cell is absent because its label is
missing from the index instead raises a lookup error and aborts the batch
(see C10). -/
theorem c5_empty_output (maxD : Nat) (df : DataFrame) (oF : Str) (iFs : List Str)
    (rows : List Nat) (r : Nat)
    (hrows : ∀ r0 ∈ rows, r0 ∈ df.index) (hoF : oF ∈ df.columns)
    (hiFs : ∀ f ∈ iFs, f ∈ df.columns) (hvf : verified_field_name oF ∉ iFs)
    (hr : r ∈ rows) (hempty : getCell df r oF = []) :
    ∃ df', check_citations maxD df oF iFs rows = .ok df' ∧
      getCell df' r (verified_field_name oF) = [] := by
  obtain ⟨df', hok⟩ := @checkRows_ok_of maxD oF iFs rows
    (if verified_field_name oF ∈ df.columns then df
     else addColumn df (verified_field_name oF))
    (fun r0 hr0 => by rw [pre_index]; exact hrows r0 hr0)
    (pre_columns_mem df oF oF hoF)
    (fun f hf => pre_columns_mem df oF f (hiFs f hf))
  refine ⟨df', hok, ?_⟩
  rw [checkRows_value hvf rows _ df' hok r hr,
      row_value_congr maxD oF iFs hvf _ df r (fun c hc => pre_getCell_ne df oF r c hc)]
  unfold row_value verify_text
  rw [hempty]
  rfl

theorem c5_witness :
    ∃ df', check_citations 1 dfB exOutputField [exInputField] [0] = .ok df' ∧
      getCell df' 0 (verified_field_name exOutputField) = [] :=
  c5_empty_output 1 dfB exOutputField [exInputField] [0] 0
    (by decide) (by decide) (by decide) (by decide) (by decide) (by rfl)

/-- C6 (confirmed): when the matcher reports no match, the driver
substitutes the fixed literal string `CITATION NOT FOUND` into the verified
text; the no-match case is an ordinary result, not an exception, and
processing of the remaining citations and rows continues (the batch still
returns successfully). -/
theorem c6_not_found_marker (maxD : Nat) (df : DataFrame) (oF : Str) (iFs : List Str)
    (rows : List Nat) (r : Nat) (cit : Str)
    (hrows : ∀ r0 ∈ rows, r0 ∈ df.index) (hoF : oF ∈ df.columns)
    (hiFs : ∀ f ∈ iFs, f ∈ df.columns) (hvf : verified_field_name oF ∉ iFs)
    (hr : r ∈ rows)
    (hone : extract_citations (getCell df r oF) = [cit])
    (hnomatch : fuzzy_find_in_text cit (reference_text df r iFs) maxD = none) :
    notFoundMarker = "CITATION NOT FOUND".toList ∧
    ∃ df', check_citations maxD df oF iFs rows = .ok df' ∧
      getCell df' r (verified_field_name oF) =
        replaceAll (getCell df r oF) cit notFoundMarker := by
  refine ⟨rfl, ?_⟩
  obtain ⟨df', hok⟩ := @checkRows_ok_of maxD oF iFs rows
    (if verified_field_name oF ∈ df.columns then df
     else addColumn df (verified_field_name oF))
    (fun r0 hr0 => by rw [pre_index]; exact hrows r0 hr0)
    (pre_columns_mem df oF oF hoF)
    (fun f hf => pre_columns_mem df oF f (hiFs f hf))
  refine ⟨df', hok, ?_⟩
  rw [checkRows_value hvf rows _ df' hok r hr,
      row_value_congr maxD oF iFs hvf _ df r (fun c hc => pre_getCell_ne df oF r c hc)]
  unfold row_value verify_text
  rw [hone]
  show verify_step maxD (reference_text df r iFs) (getCell df r oF) cit = _
  unfold verify_step
  rw [hnomatch]

theorem c6_witness :
    notFoundMarker = "CITATION NOT FOUND".toList ∧
    ∃ df', check_citations 0 dfD exOutputField [exInputField] [0] = .ok df' ∧
      getCell df' 0 (verified_field_name exOutputField) =
        replaceAll (getCell dfD 0 exOutputField) "ab".toList notFoundMarker :=
  c6_not_found_marker 0 dfD exOutputField [exInputField] [0] 0 "ab".toList
    (by decide) (by decide) (by decide) (by decide) (by decide) (by rfl) (by rfl)
